import Mathlib

/-!
# snoopy-ebpf: the execve event correlation engine

A shallow embedding of `src/snoopy/snoopy.go` and `src/main.go`.

* Go `[]byte` and `string` values are lists of bytes (`List Byte`).
* `uint32`/`uint64` values are natural numbers, `int64`/`int` values are
  integers; the conversions of the source are written out.
* The map `events map[uint32]*Event` of `handler` is a function from keys to
  optional entries.
* A goroutine that panics is a run that ends in `Except.error`.
-/

set_option autoImplicit false

namespace SnoopyEbpf

/-! ## Data model -/

/-- One element of a Go byte slice or string. -/
abbrev Byte := Fin 256

/-- The record kinds `DataArg`, `DataEnv`, `DataRet` (an `iota` block of `uint32`). -/
def DataArg : Nat := 0

/-- Second constant of the `iota` block. -/
def DataEnv : Nat := 1

/-- Third constant of the `iota` block. -/
def DataRet : Nat := 2

/-- The struct `context`: the fixed header of a raw record.  The field `Type`
is spelled `Typ` here. -/
structure context where
  Ts : Nat
  Typ : Nat
  Pid : Nat
  Tid : Nat
  Uid : Nat
  Ret : Int
  Comm : List Byte
deriving DecidableEq, Repr

/-- The struct `Event`. -/
structure Event where
  Ts : Nat
  Pid : Nat
  Tid : Nat
  Uid : Nat
  Ret : Int
  Comm : List Byte
  Args : List (List Byte)
  Envs : List (List Byte)
deriving DecidableEq, Repr

/-- The two errors `binary.Read` reports when the reader runs dry:
`io.EOF` when no byte could be read, `io.ErrUnexpectedEOF` when only a part of
the value could be read. -/
inductive ReadError where
  | EOF
  | ErrUnexpectedEOF
deriving DecidableEq, Repr

/-! ## Decoding: `binary.Read(dataBuff, binary.LittleEndian, &ctx)` -/

/-- Value of a byte sequence read as a little-endian unsigned integer. -/
def littleEndian (bs : List Byte) : Nat :=
  bs.foldr (fun b acc => b.val + 256 * acc) 0

/-- The conversion `int64(u)` of a `uint64`: two's complement. -/
def toInt64 (u : Nat) : Int :=
  if u < 2 ^ 63 then (u : Int) else (u : Int) - 2 ^ 64

/-- Decoder step for a `uint64` field: value and the bytes that remain. -/
def uint64 (d : List Byte) : Nat × List Byte :=
  (littleEndian (d.take 8), d.drop 8)

/-- Decoder step for a `uint32` field. -/
def uint32 (d : List Byte) : Nat × List Byte :=
  (littleEndian (d.take 4), d.drop 4)

/-- Decoder step for an `int64` field. -/
def int64 (d : List Byte) : Int × List Byte :=
  (toInt64 (uint64 d).1, (uint64 d).2)

/-- Decoder step for a `[16]byte` field. -/
def byteArray16 (d : List Byte) : List Byte × List Byte :=
  (d.take 16, d.drop 16)

/-- Value of `binary.Size(ctx)`: 8 + 4 + 4 + 4 + 4 + 8 + 16. -/
def contextSize : Nat := 48

/-- The fields of `context` decoded one after the other, in declaration order;
the second component is the unread rest of the buffer. -/
def decodeContext (d : List Byte) : context × List Byte :=
  let ts := uint64 d
  let typ := uint32 ts.2
  let pid := uint32 typ.2
  let tid := uint32 pid.2
  let uid := uint32 tid.2
  let ret := int64 uid.2
  let comm := byteArray16 ret.2
  ({ Ts := ts.1, Typ := typ.1, Pid := pid.1, Tid := tid.1, Uid := uid.1,
     Ret := ret.1, Comm := comm.1 }, comm.2)

/-- The call `binary.Read` on `bytes.NewBuffer(rawData)`: it needs `contextSize` bytes;
on success the buffer keeps the bytes after the header, which `handler` then
takes with `dataBuff.String()`. -/
def binaryRead (rawData : List Byte) : Except ReadError (context × List Byte) :=
  if rawData.length = 0 then .error .EOF
  else if rawData.length < contextSize then .error .ErrUnexpectedEOF
  else .ok (decodeContext rawData)

/-! ## The correlation table of `handler` -/

/-- The map `events` of `handler`, keyed by tid. -/
abbrev Table := Nat → Option Event

/-- Result of `make(map[uint32]*Event)`. -/
def Table.empty : Table := fun _ => none

/-- Assignment `events[k] = e`. -/
def Table.set (events : Table) (k : Nat) (e : Event) : Table :=
  fun j => if j = k then some e else events j

/-- Builtin `delete(events, k)`. -/
def Table.delete (events : Table) (k : Nat) : Table :=
  fun j => if j = k then none else events j

/-- The `switch ctx.Type` of `handler` (lines 191-215): the table after the
record and the event pushed to `eventsChanOut`, if any. -/
def handlerSwitch (events : Table) (ctx : context) (payload : List Byte) :
    Table × Option Event :=
  if ctx.Typ = DataArg then
    match events ctx.Tid with
    | none =>
      (events.set ctx.Tid
        { Ts := ctx.Ts, Pid := ctx.Pid, Tid := ctx.Tid, Uid := ctx.Uid, Ret := 0,
          Comm := ctx.Comm, Args := [payload], Envs := [] }, none)
    | some e => (events.set ctx.Tid { e with Args := e.Args ++ [payload] }, none)
  else if ctx.Typ = DataEnv then
    match events ctx.Tid with
    | some e => (events.set ctx.Tid { e with Envs := e.Envs ++ [payload] }, none)
    | none => (events, none)
  else if ctx.Typ = DataRet then
    match events ctx.Tid with
    | some e => (events.delete ctx.Tid, some { e with Ret := ctx.Ret })
    | none => (events, none)
  else (events, none)

/-- The loop of `handler` over the records of `input`, started with the table
`events`, while `done` stays open and every push to `eventsChanOut` is
accepted.  First component: the events pushed, in order.  Second component:
the table when `input` is exhausted, or the error `handler` panics with. -/
def handlerLoop : Table → List (List Byte) → List Event × Except ReadError Table
  | events, [] => ([], .ok events)
  | events, rawData :: input =>
    match binaryRead rawData with
    | .error err => ([], .error err)
    | .ok (ctx, payload) =>
      ((handlerSwitch events ctx payload).2.toList
          ++ (handlerLoop (handlerSwitch events ctx payload).1 input).1,
        (handlerLoop (handlerSwitch events ctx payload).1 input).2)

/-- The method `handler`: the loop started from `make(map[uint32]*Event)`. -/
def handler (input : List (List Byte)) : List Event × Except ReadError Table :=
  handlerLoop Table.empty input

/-- The same loop over records that are already decoded. -/
def correlate : Table → List (context × List Byte) → List Event × Table
  | events, [] => ([], events)
  | events, r :: rs =>
    ((handlerSwitch events r.1 r.2).2.toList
        ++ (correlate (handlerSwitch events r.1 r.2).1 rs).1,
      (correlate (handlerSwitch events r.1 r.2).1 rs).2)

/-- All records of a stream decoded, or `none` when one of them is too short. -/
def decodeAll : List (List Byte) → Option (List (context × List Byte))
  | [] => some []
  | rawData :: input =>
    match binaryRead rawData, decodeAll input with
    | .ok r, some rs => some (r :: rs)
    | _, _ => none

/-- The payloads of the records of one kind, in order. -/
def payloadsOf (kind : Nat) (recs : List (context × List Byte)) : List (List Byte) :=
  (recs.filter fun r => r.1.Typ = kind).map fun r => r.2

/-- Whether a raw record decodes to a record for tid `b`. -/
def hasTid (b : Nat) (rawData : List Byte) : Bool :=
  match binaryRead rawData with
  | .ok r => decide (r.1.Tid = b)
  | .error _ => false

/-- The tid and ret of the Ret records of a decoded stream, in order. -/
def retsOf (recs : List (context × List Byte)) : List (Nat × Int) :=
  (recs.filter fun r => r.1.Typ = DataRet).map fun r => (r.1.Tid, r.1.Ret)

/-- Every entry is stored under its own tid and has at least one argument. -/
def TableInv (events : Table) : Prop :=
  ∀ (t : Nat) (e : Event), events t = some e → e.Tid = t ∧ e.Args ≠ []

/-- Every argument and environment string of `e` is the payload of a record of
`recs` with the tid of `e` and the matching kind. -/
def FromStream (recs : List (context × List Byte)) (e : Event) : Prop :=
  (∀ a ∈ e.Args, ∃ r ∈ recs, r.1.Tid = e.Tid ∧ r.1.Typ = DataArg ∧ r.2 = a)
    ∧ ∀ v ∈ e.Envs, ∃ r ∈ recs, r.1.Tid = e.Tid ∧ r.1.Typ = DataEnv ∧ r.2 = v

/-! ## The default formatter -/

/-- A Go string literal (ASCII) as bytes. -/
def str (s : String) : List Byte :=
  s.toList.map fun c => Fin.ofNat c.toNat

/-- Verb `%d` of a non-negative integer. -/
def decimal (n : Nat) : List Byte :=
  (Nat.toDigits 10 n).map fun c => Fin.ofNat c.toNat

/-- Verb `%0wd` of a non-negative integer: zero padding on the left. -/
def decimalPad (w n : Nat) : List Byte :=
  List.replicate (w - (decimal n).length) 48 ++ decimal n

/-- Verb `%-ws` of an ASCII string: blank padding on the right. -/
def padRight (w : Nat) (s : List Byte) : List Byte :=
  s ++ List.replicate (w - s.length) 32

/-- The call `strings.Join(elems, " ")`. -/
def joinBlank (elems : List (List Byte)) : List Byte :=
  List.intercalate [32] elems

/-- The string `timestamp` of `defaultFormatter`: `time.Unix(0, int64(ts))` in
UTC, printed as hour, minute, second and microsecond. -/
def timestamp (ts : Nat) : List Byte :=
  let sec : Int := toInt64 ts / 1000000000
  let nsec : Int := toInt64 ts % 1000000000
  decimalPad 2 ((sec % 86400) / 3600).toNat ++ str ":"
    ++ decimalPad 2 ((sec % 3600) / 60).toNat ++ str ":"
    ++ decimalPad 2 (sec % 60).toNat ++ str ":"
    ++ decimalPad 6 (nsec / 1000).toNat

/-- The function `defaultFormatter`: one `fmt.Sprintf` per branch. -/
def defaultFormatter (event : Event) (printEnv : Bool) : List Byte :=
  if printEnv then
    padRight 16 (timestamp event.Ts) ++ str " [uid:" ++ decimal event.Uid
      ++ str " tid:" ++ decimal event.Tid ++ str ", comm:" ++ event.Comm ++ str "]: "
      ++ joinBlank event.Args ++ str "\n\x7b" ++ joinBlank event.Envs ++ str "\x7d\n"
  else
    padRight 16 (timestamp event.Ts) ++ str " [uid:" ++ decimal event.Uid
      ++ str " tid:" ++ decimal event.Tid ++ str ", comm:" ++ event.Comm ++ str "]: "
      ++ joinBlank event.Args ++ str "\n"

/-! ## Configuration: `main` and `New` -/

/-- The type `FormatFunc`. -/
abbrev FormatFunc := Event → Bool → List Byte

/-- The struct `Config`; `Formatter` may be `nil`. -/
structure Config where
  MaxArg : Int
  MaxEnv : Int
  Formatter : Option FormatFunc

/-- The fields of `Snoopy` that the Go code of this package reads; the other
fields are handles of the instrumentation library. -/
structure Snoopy where
  config : Config
  printEnv : Bool

/-- The calls that `New` makes into the instrumentation library, in program
order. -/
inductive BpfCall where
  | NewModuleFromFile (path : String)
  | BPFLoadObject
  | GetMap (name : String)
  | Update (key : Nat) (value : Nat)
  | GetProgram (progName : String)
  | AttachTracepoint (progName : String) (tracePoint : String)
  | InitPerfBuf (name : String) (pageCnt : Nat)
deriving DecidableEq, Repr

/-- The index `ConfigMaxArg` of `config_map`. -/
def ConfigMaxArg : Nat := 0

/-- The index `ConfigMaxEnv` of `config_map`. -/
def ConfigMaxEnv : Nat := 1

/-- The conversion `uint32(n)` of an `int`. -/
def toUint32 (n : Int) : Nat := (n % 2 ^ 32).toNat

/-- The slice `probes` of `New`. -/
def probes : List (String × String) :=
  [("syscalls:sys_enter_execve", "tracepoint__sys_enter_execve"),
   ("syscalls:sys_exit_execve", "tracepoint__sys_exit_execve"),
   ("syscalls:sys_enter_execveat", "tracepoint__sys_enter_execveat"),
   ("syscalls:sys_exit_execveat", "tracepoint__sys_exit_execveat")]

/-- The library calls of `New` (lines 78-132) for a configuration. -/
def bpfCalls (config : Config) : List BpfCall :=
  [.NewModuleFromFile "snoopy.bpf.o", .BPFLoadObject, .GetMap "config_map",
   .Update ConfigMaxArg (toUint32 config.MaxArg),
   .Update ConfigMaxEnv (toUint32 config.MaxEnv)]
  ++ (probes.map fun p => [BpfCall.GetProgram p.2, BpfCall.AttachTracepoint p.2 p.1]).flatten
  ++ [.InitPerfBuf "execve_out" 1024, .InitPerfBuf "execveat_out" 1024]

/-- The calls run against a library `world` that answers each call with an
error or with success: the calls made, and the first error. -/
def runCalls (world : BpfCall → Option String) : List BpfCall → List BpfCall × Option String
  | [] => ([], none)
  | c :: cs =>
    match world c with
    | some err => ([c], some err)
    | none => (c :: (runCalls world cs).1, (runCalls world cs).2)

/-- What a call of `New` leaves behind: the library calls it made and the value
it returned. -/
structure NewResult where
  calls : List BpfCall
  result : Except String Snoopy

/-- The function `New`. -/
def New (config : Config) (world : BpfCall → Option String) : NewResult :=
  if config.MaxArg < 0 ∨ config.MaxEnv < 0 then
    { calls := [], result := .error "max-args and max-envs should be at least 0" }
  else if config.MaxArg > 128 ∨ config.MaxEnv > 128 then
    { calls := [], result := .error "max-args and max-envs should be at most 128" }
  else
    { calls := (runCalls world (bpfCalls config)).1
      result :=
        match (runCalls world (bpfCalls config)).2 with
        | some err => .error err
        | none => .ok
            { config := { config with Formatter := some (config.Formatter.getD defaultFormatter) }
              printEnv := decide (config.MaxEnv > 0) } }

/-- The `Config` that the action of `main` builds from the three flags. -/
def mainConfig (maxArgs maxEnvs : Int) (noEnvs : Bool) : Config :=
  { MaxArg := maxArgs, MaxEnv := if noEnvs then 0 else maxEnvs, Formatter := none }

/-- The line `printer` writes for one event: `fmt.Printf("%v\n", ...)` of the
configured formatter; calling a `nil` formatter has no result. -/
def printerLine (s : Snoopy) (event : Event) : Option (List Byte) :=
  s.config.Formatter.map fun f => f event s.printEnv ++ str "\n"

/-! ## The goroutines of `Run`: two `handler`s, `printer`, and the channels -/

/-- Capacity of `eventsChanOut`: `make(chan *Event, 128)` in `Run`. -/
def eventsChanCap : Nat := 128

/-- Capacity of `execveDataChan` and `execveatDataChan`:
`make(chan []byte, 300)` in `New`. -/
def dataChanCap : Nat := 300

/-- Where a `handler` goroutine stands. -/
inductive Worker where
  /-- At `for rawData := range input` (line 184) with the table `events`. -/
  | receiving (events : Table)
  /-- Inside the send `s.eventsChanOut <- events[ctx.Tid]` (line 212); `next`
  is the table once `delete` (line 213) has run. -/
  | sending (next : Table) (event : Event)
  /-- Left `handler`: through `return` (line 219), or because `input` was
  closed and is empty. -/
  | returned
  /-- Stopped in `panic(err)` (line 189). -/
  | panicked (err : ReadError)

/-- Whether the goroutine has left `handler` by returning. -/
def Worker.hasReturned : Worker → Bool
  | .returned => true
  | _ => false

/-- One `handler` goroutine with its `input` channel. -/
structure Source where
  /-- The records buffered in `input`, oldest first. -/
  input : List (List Byte)
  /-- Whether `input` has been closed. -/
  closed : Bool
  worker : Worker

/-- The goroutines that `Run` starts and the channels they share. -/
structure Sys where
  /-- The events buffered in `eventsChanOut`, oldest first. -/
  chan : List Event
  /-- Whether `close(done)` has run. -/
  doneClosed : Bool
  /-- Whether `printer` is still in its loop. -/
  printerRunning : Bool
  /-- The goroutine `s.handler(s.execveDataChan, done)`. -/
  execve : Source
  /-- The goroutine `s.handler(s.execveatDataChan, done)`. -/
  execveat : Source

/-- A `handler` goroutine that has just been started, nothing in its input. -/
def Source.init : Source :=
  { input := [], closed := false, worker := .receiving Table.empty }

/-- The state `Run` sets up before it waits for the signal. -/
def Sys.init : Sys :=
  { chan := [], doneClosed := false, printerRunning := true,
    execve := Source.init, execveat := Source.init }

/-- The `select` on `done` that ends an iteration (lines 217-222). -/
def afterRecord (doneClosed : Bool) (events : Table) : Worker :=
  if doneClosed then .returned else .receiving events

/-- One step of a `handler` goroutine, given the buffer of `eventsChanOut` and
whether `done` is closed: the new buffer and the new state of the goroutine.
The result is `none` when the goroutine cannot move: it waits for a record, or
it waits in the send because `eventsChanOut` is full, or it has ended. -/
def handlerStep (chan : List Event) (doneClosed : Bool) (src : Source) :
    Option (List Event × Source) :=
  match src.worker with
  | .receiving events =>
    match src.input with
    | [] => if src.closed then some (chan, { src with worker := .returned }) else none
    | rawData :: rest =>
      match binaryRead rawData with
      | .error err => some (chan, { src with input := rest, worker := .panicked err })
      | .ok (ctx, payload) =>
        match (handlerSwitch events ctx payload).2 with
        | some event =>
          some (chan, { src with input := rest,
                                 worker := .sending (handlerSwitch events ctx payload).1 event })
        | none =>
          some (chan, { src with input := rest,
                                 worker := afterRecord doneClosed
                                   (handlerSwitch events ctx payload).1 })
  | .sending next event =>
    if chan.length < eventsChanCap then
      some (chan ++ [event], { src with worker := afterRecord doneClosed next })
    else none
  | .returned => none
  | .panicked _ => none

/-- The states one pass of the `select` of `printer` can lead to: `return` when
`done` is closed, a receive when `eventsChanOut` holds an event, the `default`
case when neither is ready.  A `printer` that has returned has no step. -/
def printerSteps (s : Sys) : List Sys :=
  if s.printerRunning then
    (if s.doneClosed then [{ s with printerRunning := false }] else [])
      ++ (match s.chan with
          | [] => []
          | _ :: rest => [{ s with chan := rest }])
      ++ (if s.doneClosed = false ∧ s.chan = [] then [s] else [])
  else []

/-- The statement `close(done)` of `Run`. -/
def closeDone (s : Sys) : Sys := { s with doneClosed := true }

/-- The record source puts a record into an input channel that is open and not
full. -/
def Source.deliver (src : Source) (rawData : List Byte) : Option Source :=
  if src.closed = false ∧ src.input.length < dataChanCap then
    some { src with input := src.input ++ [rawData] }
  else none

/-- One move of the system: a step of one of the two `handler` goroutines, one
pass of the `select` of `printer`, `close(done)`, the arrival of a record on
one of the two inputs, or the closing of an input once `done` is closed (the
calls `Stop()` of `Run` come after `close(done)`). -/
inductive Step : Sys → Sys → Prop where
  | execve (s : Sys) (r : List Event × Source)
      (h : handlerStep s.chan s.doneClosed s.execve = some r) :
      Step s { s with chan := r.1, execve := r.2 }
  | execveat (s : Sys) (r : List Event × Source)
      (h : handlerStep s.chan s.doneClosed s.execveat = some r) :
      Step s { s with chan := r.1, execveat := r.2 }
  | printer (s t : Sys) (h : t ∈ printerSteps s) : Step s t
  | cancel (s : Sys) : Step s (closeDone s)
  | deliverExecve (s : Sys) (rawData : List Byte) (src : Source)
      (h : s.execve.deliver rawData = some src) : Step s { s with execve := src }
  | deliverExecveat (s : Sys) (rawData : List Byte) (src : Source)
      (h : s.execveat.deliver rawData = some src) : Step s { s with execveat := src }
  | closeExecve (s : Sys) (h : s.doneClosed = true) :
      Step s { s with execve := { s.execve with closed := true } }
  | closeExecveat (s : Sys) (h : s.doneClosed = true) :
      Step s { s with execveat := { s.execveat with closed := true } }

/-! ## Concrete records -/

/-- Header bytes of a record of kind `typ` for tid `tid`: ts 1000, pid 7,
uid 0, ret `ret` (one byte), comm "ls" padded with NUL bytes. -/
def headerOf (typ tid ret : Byte) : List Byte :=
  [232, 3, 0, 0, 0, 0, 0, 0] ++ [typ, 0, 0, 0] ++ [7, 0, 0, 0] ++ [tid, 0, 0, 0]
    ++ [0, 0, 0, 0] ++ [ret, 0, 0, 0, 0, 0, 0, 0]
    ++ [108, 115, 0, 0, 0, 0, 0, 0, 0, 0, 0, 0, 0, 0, 0, 0]

/-- Header bytes of a record for tid 7. -/
def header7 (typ ret : Byte) : List Byte := headerOf typ 7 ret

/-- The bytes of "/bin/ls". -/
def binLs : List Byte := [47, 98, 105, 110, 47, 108, 115]

/-- The bytes of "-la". -/
def dashLa : List Byte := [45, 108, 97]

/-- The bytes of "HOME=/root". -/
def homeRoot : List Byte := [72, 79, 77, 69, 61, 47, 114, 111, 111, 116]

/-- An open entry for tid 7 whose header fields differ from those of `header7`
(ts 5 against 1000, uid 9 against 0). -/
def openEntry : Event :=
  { Ts := 5, Pid := 7, Tid := 7, Uid := 9, Ret := 0, Comm := [], Args := [binLs],
    Envs := [homeRoot] }

/-- The stream Arg(7,"/bin/ls"), Arg(7,"-la"), Env(7,"HOME=/root"), Ret(7,0). -/
def lsStream : List (List Byte) :=
  [header7 0 0 ++ binLs, header7 0 0 ++ dashLa, header7 1 0 ++ homeRoot, header7 2 0]

/-- The stream Arg(7,"/bin/ls"), Arg(8,"-la"), Env(8,"HOME=/root"), Ret(7,0),
Ret(8,1): two tids interleaved. -/
def mixedStream : List (List Byte) :=
  [headerOf 0 7 0 ++ binLs, headerOf 0 8 0 ++ dashLa, headerOf 1 8 0 ++ homeRoot,
   headerOf 2 7 0, headerOf 2 8 1]

/-- The event of `lsStream`, with comm cut at the first NUL byte. -/
def lsEvent : Event :=
  { Ts := 1000, Pid := 7, Tid := 7, Uid := 0, Ret := 0, Comm := str "ls",
    Args := [binLs, dashLa], Envs := [homeRoot] }

/-- A library in which every call succeeds. -/
def worldOk : BpfCall → Option String := fun _ => none

/-- What `New` returns for `--no-envs` when every library call succeeds. -/
def noEnvsSnoopy : Snoopy :=
  { config := { MaxArg := 16, MaxEnv := 0, Formatter := some defaultFormatter }
    printEnv := false }

/-- The record Arg(7,"/bin/ls"). -/
def argRaw : List Byte := header7 0 0 ++ binLs

/-- The record Ret(7,0). -/
def retRaw : List Byte := header7 2 0

/-- The event that `argRaw` followed by `retRaw` completes. -/
def ev7 : Event :=
  { Ts := 1000, Pid := 7, Tid := 7, Uid := 0, Ret := 0,
    Comm := [108, 115, 0, 0, 0, 0, 0, 0, 0, 0, 0, 0, 0, 0, 0, 0],
    Args := [binLs], Envs := [] }

/-- The state with `n` events in `eventsChanOut`, the second source idle, and
the first source at `worker` with `input` waiting. -/
def sysWith (n : Nat) (doneClosed printerRunning : Bool) (input : List (List Byte))
    (worker : Worker) : Sys :=
  { chan := List.replicate n ev7, doneClosed := doneClosed, printerRunning := printerRunning,
    execve := { input := input, closed := false, worker := worker },
    execveat := Source.init }

/-- The state after `n` events were pushed and none was printed, `done` open,
with `input` still to come. -/
def queued (n : Nat) (input : List (List Byte)) : Sys :=
  sysWith n false true input (.receiving Table.empty)

/-- The state `queued n input` once the Arg record of the next execution has
opened its entry. -/
def opened (n : Nat) (input : List (List Byte)) : Sys :=
  sysWith n false true input (.receiving (Table.empty.set 7 ev7))

/-- The state `queued n input` with the goroutine inside the push of the next
event. -/
def pushing (n : Nat) (input : List (List Byte)) : Sys :=
  sysWith n false true input (.sending Table.empty ev7)

/-- The header that `argRaw` decodes to. -/
def argCtx : context :=
  { Ts := 1000, Typ := 0, Pid := 7, Tid := 7, Uid := 0, Ret := 0,
    Comm := [108, 115, 0, 0, 0, 0, 0, 0, 0, 0, 0, 0, 0, 0, 0, 0] }

/-- The header that `retRaw` decodes to. -/
def retCtx : context :=
  { Ts := 1000, Typ := 2, Pid := 7, Tid := 7, Uid := 0, Ret := 0,
    Comm := [108, 115, 0, 0, 0, 0, 0, 0, 0, 0, 0, 0, 0, 0, 0, 0] }

/-- An input of 129 executions: one more than `eventsChanOut` holds. -/
def blockingInput : List (List Byte) :=
  (List.replicate 128 [argRaw, retRaw]).flatten ++ [argRaw, retRaw]

/-- The state with `done` closed, `printer` gone, `eventsChanOut` full and the
first `handler` goroutine inside the send of the 129th event. -/
def blockedState : Sys :=
  sysWith 128 true false [] (.sending Table.empty ev7)

/-- What holds from `blockedState` on: `done` closed, `printer` gone,
`eventsChanOut` full, the first `handler` goroutine inside the send. -/
def Blocked (s : Sys) : Prop :=
  s.doneClosed = true ∧ s.printerRunning = false ∧ eventsChanCap ≤ s.chan.length
    ∧ s.execve.worker = .sending Table.empty ev7

/-! ## Lemmas on the table and on the loop -/

theorem Table.set_same (events : Table) (k : Nat) (e : Event) :
    events.set k e k = some e := by
  simp [Table.set]

theorem Table.set_other (events : Table) (k j : Nat) (e : Event) (h : j ≠ k) :
    events.set k e j = events j := by
  simp [Table.set, h]

theorem Table.delete_same (events : Table) (k : Nat) : events.delete k k = none := by
  simp [Table.delete]

theorem Table.delete_other (events : Table) (k j : Nat) (h : j ≠ k) :
    events.delete k j = events j := by
  simp [Table.delete, h]

theorem Table.delete_set (events : Table) (k : Nat) (e : Event) (h : events k = none) :
    (events.set k e).delete k = events := by
  funext j
  by_cases hj : j = k
  · subst hj; simp [Table.delete, h]
  · simp [Table.delete, Table.set, hj]

theorem Table.set_set (events : Table) (k : Nat) (e e2 : Event) :
    (events.set k e).set k e2 = events.set k e2 := by
  funext j
  by_cases hj : j = k <;> simp [Table.set, hj]

/-- A run over records that all decode is the run of `correlate` over the
decoded records, and it does not panic. -/
theorem handlerLoop_of_decodeAll (input : List (List Byte)) :
    ∀ (recs : List (context × List Byte)) (events : Table),
      decodeAll input = some recs →
      handlerLoop events input = ((correlate events recs).1, .ok (correlate events recs).2) := by
  induction input with
  | nil =>
    intro recs events h
    simp [decodeAll] at h
    subst h
    rfl
  | cons rawData input ih =>
    intro recs events h
    unfold decodeAll at h
    cases hr : binaryRead rawData with
    | error err => simp [hr] at h
    | ok r =>
      cases hd : decodeAll input with
      | none => simp [hr, hd] at h
      | some rs =>
        simp [hr, hd] at h
        subst h
        obtain ⟨ctx, payload⟩ := r
        simp [handlerLoop, hr, correlate, ih rs _ hd]

theorem correlate_append (rs1 rs2 : List (context × List Byte)) :
    ∀ events : Table,
      correlate events (rs1 ++ rs2)
        = ((correlate events rs1).1 ++ (correlate (correlate events rs1).2 rs2).1,
           (correlate (correlate events rs1).2 rs2).2) := by
  induction rs1 with
  | nil => intro events; simp [correlate]
  | cons r rs1 ih =>
    intro events
    simp [correlate, ih, List.append_assoc]

theorem decodeAll_append (xs ys : List (List Byte)) (as bs : List (context × List Byte))
    (hx : decodeAll xs = some as) (hy : decodeAll ys = some bs) :
    decodeAll (xs ++ ys) = some (as ++ bs) := by
  induction xs generalizing as with
  | nil =>
    simp [decodeAll] at hx
    subst hx
    simpa using hy
  | cons x xs ih =>
    unfold decodeAll at hx
    cases hr : binaryRead x with
    | error err => simp [hr] at hx
    | ok r =>
      cases hd : decodeAll xs with
      | none => simp [hr, hd] at hx
      | some rs =>
        simp [hr, hd] at hx
        subst hx
        simp [decodeAll, hr, ih rs hd]

/-- The switch leaves every key other than the record's tid alone. -/
theorem handlerSwitch_other (events : Table) (ctx : context) (payload : List Byte) (k : Nat)
    (hk : k ≠ ctx.Tid) : (handlerSwitch events ctx payload).1 k = events k := by
  unfold handlerSwitch
  split
  · split <;> simp [Table.set, hk]
  · split
    · split <;> simp [Table.set, hk]
    · split
      · split <;> simp [Table.delete, hk]
      · rfl

/-- An Env or Ret record for a tid without entry changes nothing. -/
theorem handlerSwitch_orphan (events : Table) (ctx : context) (payload : List Byte)
    (hkind : ctx.Typ = DataEnv ∨ ctx.Typ = DataRet) (hopen : events ctx.Tid = none) :
    handlerSwitch events ctx payload = (events, none) := by
  rcases hkind with h | h <;> simp [handlerSwitch, h, hopen, DataArg, DataEnv, DataRet]

/-- Only an Arg record for tid `t` opens an entry for `t`. -/
theorem handlerSwitch_stays_closed (events : Table) (ctx : context) (payload : List Byte)
    (t : Nat) (hopen : events t = none) (hna : ¬ (ctx.Typ = DataArg ∧ ctx.Tid = t)) :
    (handlerSwitch events ctx payload).1 t = none := by
  by_cases ht : t = ctx.Tid
  · subst ht
    have harg : ctx.Typ ≠ DataArg := fun h => hna ⟨h, rfl⟩
    unfold handlerSwitch
    simp only [harg, if_false, hopen]
    split
    · exact hopen
    · split <;> exact hopen
  · rw [handlerSwitch_other events ctx payload t ht]
    exact hopen

/-- Arg and Env records for an open tid pile up in its entry and emit nothing. -/
theorem correlate_accumulate (t : Nat) (mid : List (context × List Byte)) :
    ∀ (base : Table) (e : Event),
      (∀ r ∈ mid, r.1.Tid = t ∧ (r.1.Typ = DataArg ∨ r.1.Typ = DataEnv)) →
      correlate (base.set t e) mid
        = ([], base.set t { e with Args := e.Args ++ payloadsOf DataArg mid,
                                   Envs := e.Envs ++ payloadsOf DataEnv mid }) := by
  induction mid with
  | nil =>
    intro base e _
    simp [correlate, payloadsOf]
  | cons r mid ih =>
    intro base e h
    have hr := h r (List.mem_cons_self _ _)
    have hmid : ∀ r ∈ mid, r.1.Tid = t ∧ (r.1.Typ = DataArg ∨ r.1.Typ = DataEnv) :=
      fun x hx => h x (List.mem_cons_of_mem _ hx)
    obtain ⟨htid, hk⟩ := hr
    rcases hk with hk | hk
    · have hsw : handlerSwitch (base.set t e) r.1 r.2
          = (base.set t { e with Args := e.Args ++ [r.2] }, none) := by
        simp [handlerSwitch, hk, htid, Table.set_same, Table.set_set]
      simp [correlate, hsw, ih base _ hmid, payloadsOf, hk, DataArg, DataEnv]
    · have hsw : handlerSwitch (base.set t e) r.1 r.2
          = (base.set t { e with Envs := e.Envs ++ [r.2] }, none) := by
        simp [handlerSwitch, hk, htid, Table.set_same, Table.set_set, DataArg, DataEnv]
      simp [correlate, hsw, ih base _ hmid, payloadsOf, hk, DataArg, DataEnv]

/-! ## The correlation claims -/

/-- C1: a stream made of an Arg record for tid `t`, then Arg and Env records
for `t` in any interleaving, then a Ret record for `t`, processed from a table
without entry for `t`, does not panic and emits exactly one event: its header
fields are those of the first Arg record, its args are the Arg payloads in
arrival order, its envs the Env payloads in arrival order, its ret the ret of
the Ret record.  The table afterwards is the table before, so it has no entry
for `t`. -/
theorem handler_assembles_event (events : Table) (t : Nat) (input : List (List Byte))
    (first last : context × List Byte) (mid : List (context × List Byte))
    (hdec : decodeAll input = some (first :: (mid ++ [last])))
    (hfirst : first.1.Typ = DataArg ∧ first.1.Tid = t)
    (hmid : ∀ r ∈ mid, r.1.Tid = t ∧ (r.1.Typ = DataArg ∨ r.1.Typ = DataEnv))
    (hlast : last.1.Typ = DataRet ∧ last.1.Tid = t)
    (hopen : events t = none) :
    handlerLoop events input
        = ([{ Ts := first.1.Ts, Pid := first.1.Pid, Tid := t, Uid := first.1.Uid,
              Ret := last.1.Ret, Comm := first.1.Comm,
              Args := payloadsOf DataArg (first :: mid),
              Envs := payloadsOf DataEnv (first :: mid) }], .ok events)
      ∧ events t = none := by
  refine ⟨?_, hopen⟩
  rw [handlerLoop_of_decodeAll input _ events hdec]
  obtain ⟨hfk, hft⟩ := hfirst
  obtain ⟨hlk, hlt⟩ := hlast
  have h1 : handlerSwitch events first.1 first.2
      = (events.set t
          { Ts := first.1.Ts, Pid := first.1.Pid, Tid := t, Uid := first.1.Uid,
            Ret := 0, Comm := first.1.Comm, Args := [first.2], Envs := [] }, none) := by
    simp [handlerSwitch, hfk, hft, hopen]
  have h3 : ∀ e : Event, handlerSwitch (events.set t e) last.1 last.2
      = (events, some { e with Ret := last.1.Ret }) := by
    intro e
    simp [handlerSwitch, hlk, hlt, Table.set_same, Table.delete_set events t _ hopen,
      DataArg, DataEnv, DataRet]
  have hp1 : payloadsOf DataArg (first :: mid) = first.2 :: payloadsOf DataArg mid := by
    simp [payloadsOf, hfk]
  have hp2 : payloadsOf DataEnv (first :: mid) = payloadsOf DataEnv mid := by
    simp [payloadsOf, hfk, DataArg, DataEnv]
  simp [correlate, h1, correlate_append, correlate_accumulate t mid events _ hmid, h3, hp1, hp2]

/-- Witness for C1: Arg(7,"/bin/ls"), Arg(7,"-la"), Env(7,"HOME=/root"),
Ret(7,0) gives one event with args ["/bin/ls","-la"], envs ["HOME=/root"] and
ret 0. -/
theorem handler_assembles_event_witness :
    (handler lsStream).1
        = [{ Ts := 1000, Pid := 7, Tid := 7, Uid := 0, Ret := 0,
             Comm := [108, 115, 0, 0, 0, 0, 0, 0, 0, 0, 0, 0, 0, 0, 0, 0],
             Args := [binLs, dashLa], Envs := [homeRoot] }]
      ∧ (handler lsStream).2 = .ok Table.empty := by
  have h := handler_assembles_event Table.empty 7 lsStream
    (decodeContext (header7 0 0 ++ binLs)) (decodeContext (header7 2 0))
    [decodeContext (header7 0 0 ++ dashLa), decodeContext (header7 1 0 ++ homeRoot)]
    (by decide) (by decide) (by decide) (by decide) rfl
  constructor
  · rw [handler, h.1]
    decide
  · rw [handler, h.1]

/-- C4: an Arg record never emits an event.  When its tid has no entry, the
entry afterwards takes ts, pid, tid, uid and comm from the record's header, its
args are the one payload and its envs are empty.  When its tid has an entry,
the payload is appended to the entry's args and every other field of the entry
(ts, pid, tid, uid, ret, comm, envs) stays as it was, whatever the header of
the later record says.  Afterwards the tid has an entry, and the entries of all
other tids are unchanged. -/
theorem onArg_create_or_continue (events : Table) (rawData : List Byte) (ctx : context)
    (payload : List Byte) (hdec : binaryRead rawData = .ok (ctx, payload))
    (harg : ctx.Typ = DataArg) :
    ∃ events2 : Table,
      handlerLoop events [rawData] = ([], .ok events2)
      ∧ (events ctx.Tid = none →
          events2 ctx.Tid = some
            { Ts := ctx.Ts, Pid := ctx.Pid, Tid := ctx.Tid, Uid := ctx.Uid,
              Ret := 0, Comm := ctx.Comm, Args := [payload], Envs := [] })
      ∧ (∀ e : Event, events ctx.Tid = some e →
          events2 ctx.Tid = some
            { Ts := e.Ts, Pid := e.Pid, Tid := e.Tid, Uid := e.Uid, Ret := e.Ret,
              Comm := e.Comm, Args := e.Args ++ [payload], Envs := e.Envs })
      ∧ (events2 ctx.Tid).isSome = true
      ∧ ∀ k : Nat, k ≠ ctx.Tid → events2 k = events k := by
  refine ⟨(handlerSwitch events ctx payload).1, ?_, ?_, ?_, ?_, ?_⟩
  · have hnone : (handlerSwitch events ctx payload).2 = none := by
      unfold handlerSwitch
      rw [if_pos harg]
      split <;> rfl
    simp [handlerLoop, hdec, hnone]
  · intro h
    simp [handlerSwitch, harg, h, Table.set_same]
  · intro e h
    simp [handlerSwitch, harg, h, Table.set_same]
  · unfold handlerSwitch
    rw [if_pos harg]
    split <;> simp [Table.set_same]
  · intro k hk
    exact handlerSwitch_other events ctx payload k hk

/-- Witness for C4: a second Arg record for tid 7 whose header differs from
the entry (ts 1000 against 5, uid 0 against 9) only extends the args. -/
theorem onArg_create_or_continue_witness :
    handlerLoop (Table.empty.set 7 openEntry) [header7 0 0 ++ dashLa]
      = ([], .ok (Table.empty.set 7 { openEntry with Args := [binLs, dashLa] })) := by
  obtain ⟨events2, h1, _, h3, _, h5⟩ := onArg_create_or_continue
    (Table.empty.set 7 openEntry)
    (header7 0 0 ++ dashLa) (decodeContext (header7 0 0 ++ dashLa)).1 dashLa rfl (by decide)
  have h7 : events2 7 = some { openEntry with Args := [binLs, dashLa] } := h3 _ (by decide)
  have heq : events2 = Table.empty.set 7 { openEntry with Args := [binLs, dashLa] } := by
    funext k
    by_cases hk : k = 7
    · subst hk
      rw [h7, Table.set_same]
    · rw [h5 k hk, Table.set_other _ _ _ _ hk, Table.set_other _ _ _ _ hk]
  rw [h1, heq]

/-- C2: an Env or Ret record whose tid has no entry emits no event and leaves
the table as it is.  Hence such a record, arriving after records none of which
is an Arg record for its tid, can be taken out of the stream without changing
anything the handler does afterwards: the events emitted and the final table
are the same, so the payload of an early Env record is in no event. -/
theorem orphan_discarded (events : Table) (rawData : List Byte) (ctx : context)
    (payload : List Byte) (hdec : binaryRead rawData = .ok (ctx, payload))
    (hkind : ctx.Typ = DataEnv ∨ ctx.Typ = DataRet)
    (hopen : events ctx.Tid = none) :
    handlerLoop events [rawData] = ([], .ok events)
      ∧ ∀ (before after : List (List Byte)),
          (∀ raw ∈ before, ∀ (c : context) (p : List Byte),
              binaryRead raw = .ok (c, p) → ¬ (c.Typ = DataArg ∧ c.Tid = ctx.Tid)) →
          handlerLoop events (before ++ rawData :: after)
            = handlerLoop events (before ++ after) := by
  have hsw := handlerSwitch_orphan events ctx payload hkind hopen
  constructor
  · simp [handlerLoop, hdec, hsw]
  · intro before after
    induction before generalizing events with
    | nil =>
      intro _
      simp [handlerLoop, hdec, handlerSwitch_orphan events ctx payload hkind hopen]
    | cons raw before ih =>
      intro hb
      cases hr : binaryRead raw with
      | error err => simp [handlerLoop, hr]
      | ok r =>
        obtain ⟨c, p⟩ := r
        have hna := hb raw (List.mem_cons_self _ _) c p hr
        have hclosed := handlerSwitch_stays_closed events c p ctx.Tid hopen hna
        have hrec := ih (handlerSwitch events c p).1 hclosed
          (handlerSwitch_orphan _ ctx payload hkind hclosed)
          (fun x hx => hb x (List.mem_cons_of_mem _ hx))
        simp [handlerLoop, hr, hrec]

/-- Witness for C2: an Env record for tid 7 ahead of the stream of C1 changes
nothing. -/
theorem orphan_discarded_witness :
    handlerLoop Table.empty [header7 1 0 ++ dashLa] = ([], .ok Table.empty)
      ∧ handlerLoop Table.empty ((header7 1 0 ++ dashLa) :: lsStream)
          = handlerLoop Table.empty lsStream := by
  have h := orphan_discarded Table.empty (header7 1 0 ++ dashLa)
    (decodeContext (header7 1 0 ++ dashLa)).1 dashLa rfl (by decide) rfl
  exact ⟨h.1, by simpa using h.2 [] lsStream (by simp)⟩

/-! ## Invariants of the table -/

theorem TableInv_empty : TableInv Table.empty := by
  intro t e h
  simp [Table.empty] at h

/-- What the switch emits: only a Ret record emits, and the event is the entry
of the record's tid with the record's ret. -/
theorem handlerSwitch_emits (events : Table) (ctx : context) (payload : List Byte) (e : Event)
    (h : (handlerSwitch events ctx payload).2 = some e) :
    ctx.Typ = DataRet ∧ ∃ e0 : Event, events ctx.Tid = some e0 ∧ e = { e0 with Ret := ctx.Ret } := by
  unfold handlerSwitch at h
  split at h
  · split at h <;> simp at h
  · split at h
    · split at h <;> simp at h
    · split at h
      · rename_i hret
        split at h
        · rename_i e0 he0
          simp at h
          exact ⟨hret, e0, he0, h.symm⟩
        · simp at h
      · simp at h

theorem handlerSwitch_inv (events : Table) (ctx : context) (payload : List Byte)
    (hinv : TableInv events) : TableInv (handlerSwitch events ctx payload).1 := by
  intro t e h
  by_cases ht : t = ctx.Tid
  · subst ht
    unfold handlerSwitch at h
    split at h
    · split at h
      · simp [Table.set_same] at h
        subst h
        simp
      · rename_i e0 he0
        simp [Table.set_same] at h
        subst h
        have := hinv _ _ he0
        simp [this.1]
    · split at h
      · split at h
        · rename_i e0 he0
          simp [Table.set_same] at h
          subst h
          have := hinv _ _ he0
          simp [this.1, this.2]
        · exact hinv _ _ h
      · split at h
        · split at h
          · simp [Table.delete_same] at h
          · exact hinv _ _ h
        · exact hinv _ _ h
  · rw [handlerSwitch_other events ctx payload t ht] at h
    exact hinv _ _ h

/-- The invariant along a decoded stream, with the emitted events matched, in
order, to Ret records of the stream. -/
theorem correlate_inv (recs : List (context × List Byte)) :
    ∀ events : Table, TableInv events →
      TableInv (correlate events recs).2
        ∧ (∀ e ∈ (correlate events recs).1, e.Args ≠ [])
        ∧ List.Sublist ((correlate events recs).1.map fun e => (e.Tid, e.Ret)) (retsOf recs) := by
  induction recs with
  | nil =>
    intro events hinv
    simp [correlate, retsOf, hinv]
  | cons r recs ih =>
    intro events hinv
    have hstep := handlerSwitch_inv events r.1 r.2 hinv
    obtain ⟨h1, h2, h3⟩ := ih _ hstep
    refine ⟨by simpa [correlate] using h1, ?_, ?_⟩
    · intro e he
      simp only [correlate, List.mem_append] at he
      rcases he with he | he
      · have hsome : (handlerSwitch events r.1 r.2).2 = some e := by
          cases hx : (handlerSwitch events r.1 r.2).2 with
          | none => simp [hx] at he
          | some x =>
            simp [hx] at he
            rw [he]
        obtain ⟨_, e0, he0, heq⟩ := handlerSwitch_emits events r.1 r.2 e hsome
        subst heq
        exact (hinv _ _ he0).2
      · exact h2 e he
    · cases hx : (handlerSwitch events r.1 r.2).2 with
      | none =>
        simp only [correlate, hx, Option.toList, List.nil_append]
        by_cases hret : r.1.Typ = DataRet
        · have : retsOf (r :: recs) = (r.1.Tid, r.1.Ret) :: retsOf recs := by
            simp [retsOf, hret]
          rw [this]
          exact List.Sublist.cons _ h3
        · have : retsOf (r :: recs) = retsOf recs := by
            simp [retsOf, hret]
          rw [this]
          exact h3
      | some x =>
        obtain ⟨hret, e0, he0, heq⟩ := handlerSwitch_emits events r.1 r.2 x hx
        have htid := (hinv _ _ he0).1
        have : retsOf (r :: recs) = (r.1.Tid, r.1.Ret) :: retsOf recs := by
          simp [retsOf, hret]
        rw [this]
        simp only [correlate, hx, Option.toList, List.singleton_append, List.map_cons]
        have hkey : (x.Tid, x.Ret) = (r.1.Tid, r.1.Ret) := by
          subst heq
          simp [htid]
        rw [hkey]
        exact List.Sublist.cons₂ _ h3

/-- C10: along every stream whose records decode, processed from the empty
table, the handler does not panic; every entry of the table it ends with is
stored under its own tid and has at least one argument (every reachable table
is the final table of a stream); every emitted event has at least one
argument; the emitted events, in order, carry the tid and ret of distinct Ret
records of the stream taken in stream order, so there are at most as many
events as Ret records; and a record whose kind is none of Arg, Env, Ret changes
nothing. -/
theorem handler_table_invariant (input : List (List Byte)) (recs : List (context × List Byte))
    (hdec : decodeAll input = some recs) :
    (∃ events : Table, (handler input).2 = .ok events
        ∧ ∀ (t : Nat) (e : Event), events t = some e → e.Tid = t ∧ e.Args ≠ [])
      ∧ (∀ e ∈ (handler input).1, e.Args ≠ [])
      ∧ List.Sublist ((handler input).1.map fun e => (e.Tid, e.Ret)) (retsOf recs)
      ∧ (handler input).1.length ≤ (recs.filter fun r => r.1.Typ = DataRet).length
      ∧ ∀ (events : Table) (ctx : context) (payload : List Byte),
          ctx.Typ ≠ DataArg → ctx.Typ ≠ DataEnv → ctx.Typ ≠ DataRet →
          handlerSwitch events ctx payload = (events, none) := by
  obtain ⟨h1, h2, h3⟩ := correlate_inv recs Table.empty TableInv_empty
  have hrun := handlerLoop_of_decodeAll input recs Table.empty hdec
  refine ⟨⟨(correlate Table.empty recs).2, by simp [handler, hrun], h1⟩, ?_, ?_, ?_, ?_⟩
  · simpa [handler, hrun] using h2
  · simpa [handler, hrun] using h3
  · have hlen := h3.length_le
    simpa [handler, hrun, retsOf] using hlen
  · intro events ctx payload ha he hr
    simp [handlerSwitch, ha, he, hr]

/-- Witness for C10: the stream of C1 followed by a second Ret record for tid 7
emits one event for two Ret records. -/
theorem handler_table_invariant_witness :
    (handler (lsStream ++ [header7 2 0])).1.length = 1
      ∧ (handler (lsStream ++ [header7 2 0])).1.length
          ≤ ((lsStream ++ [header7 2 0]).map decodeContext |>.filter
              fun r => r.1.Typ = DataRet).length := by
  have h := handler_table_invariant (lsStream ++ [header7 2 0])
    ((lsStream ++ [header7 2 0]).map decodeContext) (by decide)
  exact ⟨by decide, h.2.2.2.1⟩

/-! ## Independence of tids -/

/-- The switch reads and writes the table only at the record's tid. -/
theorem handlerSwitch_congr (ev1 ev2 : Table) (ctx : context) (payload : List Byte)
    (h : ev1 ctx.Tid = ev2 ctx.Tid) :
    (handlerSwitch ev1 ctx payload).2 = (handlerSwitch ev2 ctx payload).2
      ∧ (handlerSwitch ev1 ctx payload).1 ctx.Tid = (handlerSwitch ev2 ctx payload).1 ctx.Tid := by
  unfold handlerSwitch
  rw [h]
  split
  · cases ev2 ctx.Tid <;> simp [Table.set_same]
  · split
    · cases hx : ev2 ctx.Tid <;> simp [Table.set_same, h, hx]
    · split
      · cases hx : ev2 ctx.Tid <;> simp [Table.delete_same, h, hx]
      · simp [h]

theorem decodeAll_filter (b : Nat) (input : List (List Byte)) :
    ∀ recs : List (context × List Byte), decodeAll input = some recs →
      decodeAll (input.filter (hasTid b)) = some (recs.filter fun r => r.1.Tid = b) := by
  induction input with
  | nil =>
    intro recs h
    simp [decodeAll] at h
    subst h
    simp [decodeAll]
  | cons rawData input ih =>
    intro recs h
    unfold decodeAll at h
    cases hr : binaryRead rawData with
    | error err => simp [hr] at h
    | ok r =>
      cases hd : decodeAll input with
      | none => simp [hr, hd] at h
      | some rs =>
        simp [hr, hd] at h
        subst h
        by_cases hb : r.1.Tid = b
        · simp [List.filter, hasTid, hr, hb, decodeAll, ih rs hd]
        · simp [List.filter, hasTid, hr, hb, ih rs hd]

/-- The events for tid `b` are those of the sub-stream of the records for `b`. -/
theorem correlate_filter (b : Nat) (recs : List (context × List Byte)) :
    ∀ ev1 ev2 : Table, TableInv ev1 → ev1 b = ev2 b →
      (correlate ev1 recs).1.filter (fun e => e.Tid = b)
          = (correlate ev2 (recs.filter fun r => r.1.Tid = b)).1
        ∧ (correlate ev1 recs).2 b = (correlate ev2 (recs.filter fun r => r.1.Tid = b)).2 b := by
  induction recs with
  | nil =>
    intro ev1 ev2 _ h
    simp [correlate, h]
  | cons r recs ih =>
    intro ev1 ev2 hinv h
    have hstep := handlerSwitch_inv ev1 r.1 r.2 hinv
    by_cases hb : r.1.Tid = b
    · have hc := handlerSwitch_congr ev1 ev2 r.1 r.2 (by rw [hb]; exact h)
      rw [hb] at hc
      obtain ⟨i1, i2⟩ := ih (handlerSwitch ev1 r.1 r.2).1 (handlerSwitch ev2 r.1 r.2).1 hstep hc.2
      have hkeep : (handlerSwitch ev1 r.1 r.2).2.toList.filter (fun e => e.Tid = b)
          = (handlerSwitch ev1 r.1 r.2).2.toList := by
        cases hx : (handlerSwitch ev1 r.1 r.2).2 with
        | none => simp
        | some x =>
          obtain ⟨_, e0, he0, heq⟩ := handlerSwitch_emits ev1 r.1 r.2 x hx
          have htid := (hinv _ _ he0).1
          subst heq
          simp [htid, hb]
      simp only [List.filter, hb, decide_True, correlate, List.filter_append, hkeep]
      rw [← hc.1]
      exact ⟨by rw [← i1], i2⟩
    · have hother := handlerSwitch_other ev1 r.1 r.2 b (fun hh => hb hh.symm)
      obtain ⟨i1, i2⟩ := ih (handlerSwitch ev1 r.1 r.2).1 ev2 hstep (by rw [hother]; exact h)
      have hdrop : (handlerSwitch ev1 r.1 r.2).2.toList.filter (fun e => e.Tid = b) = [] := by
        cases hx : (handlerSwitch ev1 r.1 r.2).2 with
        | none => simp
        | some x =>
          obtain ⟨_, e0, he0, heq⟩ := handlerSwitch_emits ev1 r.1 r.2 x hx
          have htid := (hinv _ _ he0).1
          subst heq
          simp [htid, hb]
      simp only [List.filter, hb, decide_False, correlate, List.filter_append, hdrop,
        List.nil_append]
      exact ⟨i1, i2⟩

/-- The switch keeps the entries made of payloads of the stream. -/
theorem handlerSwitch_fromStream (all : List (context × List Byte)) (events : Table)
    (r : context × List Byte) (hr : r ∈ all) (hinv : TableInv events)
    (hfrom : ∀ (t : Nat) (e : Event), events t = some e → FromStream all e) :
    (∀ (t : Nat) (e : Event), (handlerSwitch events r.1 r.2).1 t = some e → FromStream all e)
      ∧ ∀ e : Event, (handlerSwitch events r.1 r.2).2 = some e → FromStream all e := by
  constructor
  · intro t e h
    by_cases ht : t = r.1.Tid
    · subst ht
      unfold handlerSwitch at h
      split at h
      · rename_i harg
        split at h
        · simp [Table.set_same] at h
          subst h
          refine ⟨?_, by simp⟩
          intro a ha
          simp only [List.mem_singleton] at ha
          exact ⟨r, hr, rfl, harg, ha.symm⟩
        · rename_i e0 he0
          simp [Table.set_same] at h
          subst h
          obtain ⟨f1, f2⟩ := hfrom _ _ he0
          have htid := (hinv _ _ he0).1
          refine ⟨?_, f2⟩
          intro a ha
          simp only [List.mem_append, List.mem_singleton] at ha
          rcases ha with ha | ha
          · exact f1 a ha
          · exact ⟨r, hr, htid.symm, harg, ha.symm⟩
      · split at h
        · rename_i henv
          split at h
          · rename_i e0 he0
            simp [Table.set_same] at h
            subst h
            obtain ⟨f1, f2⟩ := hfrom _ _ he0
            have htid := (hinv _ _ he0).1
            refine ⟨f1, ?_⟩
            intro v hv
            simp only [List.mem_append, List.mem_singleton] at hv
            rcases hv with hv | hv
            · exact f2 v hv
            · exact ⟨r, hr, htid.symm, henv, hv.symm⟩
          · exact hfrom _ _ h
        · split at h
          · split at h
            · simp [Table.delete_same] at h
            · exact hfrom _ _ h
          · exact hfrom _ _ h
    · rw [handlerSwitch_other events r.1 r.2 t ht] at h
      exact hfrom _ _ h
  · intro e h
    obtain ⟨_, e0, he0, heq⟩ := handlerSwitch_emits events r.1 r.2 e h
    subst heq
    exact hfrom _ e0 he0

theorem correlate_fromStream (all : List (context × List Byte))
    (recs : List (context × List Byte)) :
    ∀ events : Table, (∀ r ∈ recs, r ∈ all) → TableInv events →
      (∀ (t : Nat) (e : Event), events t = some e → FromStream all e) →
      ∀ e ∈ (correlate events recs).1, FromStream all e := by
  induction recs with
  | nil =>
    intro events _ _ _ e he
    simp [correlate] at he
  | cons r recs ih =>
    intro events hsub hinv hfrom e he
    have hr : r ∈ all := hsub r (List.mem_cons_self _ _)
    obtain ⟨g1, g2⟩ := handlerSwitch_fromStream all events r hr hinv hfrom
    simp only [correlate, List.mem_append] at he
    rcases he with he | he
    · apply g2
      cases hx : (handlerSwitch events r.1 r.2).2 with
      | none => simp [hx] at he
      | some x =>
        simp [hx] at he
        rw [he]
    · exact ih _ (fun x hx => hsub x (List.mem_cons_of_mem _ hx))
        (handlerSwitch_inv events r.1 r.2 hinv) g1 e he

/-- C3: for a stream whose records all decode, processed from the empty table,
and every tid `b`: the events emitted with tid `b`, in order, are exactly the
events emitted when the handler is given only the records of tid `b`.  So the
records of the other tids have no influence on them: a second stream with the
same records of tid `b` gives the same events of tid `b`.  And every argument
(environment string) of an event with tid `b` is the payload of an Arg (Env)
record of the stream whose tid is `b`. -/
theorem tids_accumulate_independently (input : List (List Byte))
    (recs : List (context × List Byte)) (b : Nat) (hdec : decodeAll input = some recs) :
    (handler input).1.filter (fun e => e.Tid = b) = (handler (input.filter (hasTid b))).1
      ∧ (∀ (input2 : List (List Byte)) (recs2 : List (context × List Byte)),
          decodeAll input2 = some recs2 →
          input2.filter (hasTid b) = input.filter (hasTid b) →
          (handler input2).1.filter (fun e => e.Tid = b)
            = (handler input).1.filter (fun e => e.Tid = b))
      ∧ ∀ e ∈ (handler input).1, e.Tid = b →
          (∀ a ∈ e.Args, ∃ r ∈ recs, r.1.Tid = b ∧ r.1.Typ = DataArg ∧ r.2 = a)
            ∧ ∀ v ∈ e.Envs, ∃ r ∈ recs, r.1.Tid = b ∧ r.1.Typ = DataEnv ∧ r.2 = v := by
  have hsub : ∀ (inp : List (List Byte)) (rs : List (context × List Byte)),
      decodeAll inp = some rs →
      (handler inp).1.filter (fun e => e.Tid = b) = (handler (inp.filter (hasTid b))).1 := by
    intro inp rs h
    have hrun := handlerLoop_of_decodeAll inp rs Table.empty h
    have hrun2 := handlerLoop_of_decodeAll _ _ Table.empty (decodeAll_filter b inp rs h)
    simp only [handler, hrun, hrun2]
    exact (correlate_filter b rs Table.empty Table.empty TableInv_empty rfl).1
  refine ⟨hsub input recs hdec, ?_, ?_⟩
  · intro input2 recs2 hdec2 hsame
    rw [hsub input2 recs2 hdec2, hsub input recs hdec, hsame]
  · intro e he hb
    have hrun := handlerLoop_of_decodeAll input recs Table.empty hdec
    simp only [handler, hrun] at he
    have hfrom := correlate_fromStream recs recs Table.empty (fun _ h => h) TableInv_empty
      (by intro t e h; simp [Table.empty] at h) e he
    rw [← hb]
    exact hfrom

/-- Witness for C3: in the interleaved stream of tids 7 and 8 the one event of
tid 7 is the event of the two records of tid 7 alone, with the single argument
"/bin/ls". -/
theorem tids_accumulate_independently_witness :
    (handler mixedStream).1.filter (fun e => e.Tid = 7)
        = (handler [headerOf 0 7 0 ++ binLs, headerOf 2 7 0]).1
      ∧ (handler mixedStream).1.length = 2
      ∧ ((handler mixedStream).1.filter (fun e => e.Tid = 7)).map (fun e => e.Args)
          = [[binLs]] := by
  have h := tids_accumulate_independently mixedStream (mixedStream.map decodeContext) 7
    (by decide)
  refine ⟨?_, by decide, by decide⟩
  rw [h.1]
  decide

/-! ## The decoder -/

theorem littleEndian_eq_sum (bs : List Byte) :
    littleEndian bs = ∑ i ∈ Finset.range bs.length, (bs.getD i 0).val * 256 ^ i := by
  induction bs with
  | nil => simp [littleEndian]
  | cons b bs ih =>
    have h : littleEndian (b :: bs) = b.val + 256 * littleEndian bs := rfl
    rw [h, ih, List.length_cons, Finset.sum_range_succ', Finset.mul_sum]
    simp only [List.getD_cons_succ, List.getD_cons_zero, pow_zero, mul_one, pow_succ]
    rw [add_comm]
    congr 1
    apply Finset.sum_congr rfl
    intro i _
    ring

theorem littleEndian_slice (raw : List Byte) (a n : Nat) (h : a + n ≤ raw.length) :
    littleEndian ((raw.drop a).take n)
      = ∑ i ∈ Finset.range n, (raw.getD (a + i) 0).val * 256 ^ i := by
  have hl : ((raw.drop a).take n).length = n := by
    simp [List.length_take, List.length_drop]; omega
  rw [littleEndian_eq_sum, hl]
  apply Finset.sum_congr rfl
  intro i hi
  have hi2 : i < n := Finset.mem_range.mp hi
  congr 2
  simp [List.getD_eq_getElem?_getD, List.getElem?_take, List.getElem?_drop, hi2]

theorem littleEndian_lt (bs : List Byte) : littleEndian bs < 256 ^ bs.length := by
  induction bs with
  | nil => simp [littleEndian]
  | cons b bs ih =>
    have h : littleEndian (b :: bs) = b.val + 256 * littleEndian bs := rfl
    rw [h, List.length_cons, pow_succ]
    have := b.isLt
    omega

theorem littleEndian_slice_lt (raw : List Byte) (a n : Nat) :
    littleEndian ((raw.drop a).take n) < 256 ^ n := by
  have h1 := littleEndian_lt ((raw.drop a).take n)
  have h2 : ((raw.drop a).take n).length ≤ n := by simp [List.length_take]
  exact lt_of_lt_of_le h1 (Nat.pow_le_pow_right (by decide) h2)

/-- C6: a record of at least 48 bytes decodes, and the decoded header follows
the little-endian layout: ts is bytes 0..8, kind bytes 8..12, pid bytes 12..16,
tid bytes 16..20, uid bytes 20..24, each the sum of byte i times 256^i; ret is
bytes 24..32 read the same way and taken in two's complement; comm is bytes
32..48 as they are; the payload is every byte from offset 48 on, nothing
stripped.  The values fit their types. -/
theorem binaryRead_layout (rawData : List Byte) (hlen : 48 ≤ rawData.length) :
    ∃ ctx : context,
      binaryRead rawData = .ok (ctx, rawData.drop 48)
      ∧ ctx.Ts = ∑ i ∈ Finset.range 8, (rawData.getD i 0).val * 256 ^ i
      ∧ ctx.Typ = ∑ i ∈ Finset.range 4, (rawData.getD (8 + i) 0).val * 256 ^ i
      ∧ ctx.Pid = ∑ i ∈ Finset.range 4, (rawData.getD (12 + i) 0).val * 256 ^ i
      ∧ ctx.Tid = ∑ i ∈ Finset.range 4, (rawData.getD (16 + i) 0).val * 256 ^ i
      ∧ ctx.Uid = ∑ i ∈ Finset.range 4, (rawData.getD (20 + i) 0).val * 256 ^ i
      ∧ (∀ u : Nat, u = ∑ i ∈ Finset.range 8, (rawData.getD (24 + i) 0).val * 256 ^ i →
          (u < 2 ^ 63 → ctx.Ret = (u : Int)) ∧ (2 ^ 63 ≤ u → ctx.Ret = (u : Int) - 2 ^ 64))
      ∧ ctx.Comm = (rawData.drop 32).take 16
      ∧ ctx.Ts < 2 ^ 64 ∧ ctx.Typ < 2 ^ 32 ∧ ctx.Pid < 2 ^ 32 ∧ ctx.Tid < 2 ^ 32
      ∧ ctx.Uid < 2 ^ 32 ∧ -(2 : Int) ^ 63 ≤ ctx.Ret ∧ ctx.Ret < 2 ^ 63 := by
  have hread : binaryRead rawData = .ok (decodeContext rawData) := by
    unfold binaryRead contextSize
    rw [if_neg (by omega), if_neg (by omega)]
  have hrest : (decodeContext rawData).2 = rawData.drop 48 := by
    simp [decodeContext, uint64, uint32, int64, byteArray16, List.drop_drop]
  have h0 := littleEndian_slice rawData 0 8 (by omega)
  have h8 := littleEndian_slice rawData 8 4 (by omega)
  have h12 := littleEndian_slice rawData 12 4 (by omega)
  have h16 := littleEndian_slice rawData 16 4 (by omega)
  have h20 := littleEndian_slice rawData 20 4 (by omega)
  have h24 := littleEndian_slice rawData 24 8 (by omega)
  have b0 := littleEndian_slice_lt rawData 0 8
  have b8 := littleEndian_slice_lt rawData 8 4
  have b12 := littleEndian_slice_lt rawData 12 4
  have b16 := littleEndian_slice_lt rawData 16 4
  have b20 := littleEndian_slice_lt rawData 20 4
  have b24 := littleEndian_slice_lt rawData 24 8
  simp only [List.drop_zero, zero_add] at h0 b0
  refine ⟨(decodeContext rawData).1, ?_, ?_, ?_, ?_, ?_, ?_, ?_, ?_, ?_, ?_, ?_, ?_, ?_, ?_, ?_⟩
  · rw [hread, ← hrest]
  · simpa [decodeContext, uint64] using h0
  · simpa [decodeContext, uint64, uint32, List.drop_drop] using h8
  · simpa [decodeContext, uint64, uint32, List.drop_drop] using h12
  · simpa [decodeContext, uint64, uint32, List.drop_drop] using h16
  · simpa [decodeContext, uint64, uint32, List.drop_drop] using h20
  · intro u hu
    rw [← h24] at hu
    have hret : (decodeContext rawData).1.Ret
        = toInt64 (littleEndian ((rawData.drop 24).take 8)) := by
      simp [decodeContext, uint64, uint32, int64, List.drop_drop]
    rw [hret, ← hu]
    unfold toInt64
    constructor
    · intro h; rw [if_pos h]
    · intro h; rw [if_neg (by omega)]
  · simp [decodeContext, uint64, uint32, int64, byteArray16, List.drop_drop]
  · simpa [decodeContext, uint64] using b0
  · simpa [decodeContext, uint64, uint32, List.drop_drop] using b8
  · simpa [decodeContext, uint64, uint32, List.drop_drop] using b12
  · simpa [decodeContext, uint64, uint32, List.drop_drop] using b16
  · simpa [decodeContext, uint64, uint32, List.drop_drop] using b20
  · have hret : (decodeContext rawData).1.Ret
        = toInt64 (littleEndian ((rawData.drop 24).take 8)) := by
      simp [decodeContext, uint64, uint32, int64, List.drop_drop]
    rw [hret]
    unfold toInt64
    split <;> omega
  · have hret : (decodeContext rawData).1.Ret
        = toInt64 (littleEndian ((rawData.drop 24).take 8)) := by
      simp [decodeContext, uint64, uint32, int64, List.drop_drop]
    rw [hret]
    unfold toInt64
    have : (256 : Nat) ^ 8 = 2 ^ 64 := by norm_num
    split <;> omega

/-- Witness for C6: a 51-byte record whose payload ends in two NUL bytes keeps
them, and its tid field reads 7. -/
theorem binaryRead_layout_witness :
    48 ≤ (header7 0 0 ++ [47, 0, 0]).length
      ∧ ∃ ctx : context,
          binaryRead (header7 0 0 ++ [47, 0, 0]) = .ok (ctx, [47, 0, 0]) ∧ ctx.Tid = 7 := by
  obtain ⟨ctx, h1, _, _, _, h5, _⟩ := binaryRead_layout (header7 0 0 ++ [47, 0, 0]) (by decide)
  refine ⟨by decide, ctx, h1, ?_⟩
  rw [h5]
  decide

/-! ## Decode failures -/

theorem handlerLoop_append_of_decodeAll (before : List (List Byte)) :
    ∀ (recs : List (context × List Byte)) (events : Table) (rest : List (List Byte)),
      decodeAll before = some recs →
      handlerLoop events (before ++ rest)
        = ((correlate events recs).1 ++ (handlerLoop (correlate events recs).2 rest).1,
           (handlerLoop (correlate events recs).2 rest).2) := by
  induction before with
  | nil =>
    intro recs events rest h
    simp [decodeAll] at h
    subst h
    simp [correlate]
  | cons rawData before ih =>
    intro recs events rest h
    unfold decodeAll at h
    cases hr : binaryRead rawData with
    | error err => simp [hr] at h
    | ok r =>
      cases hd : decodeAll before with
      | none => simp [hr, hd] at h
      | some rs =>
        simp [hr, hd] at h
        subst h
        obtain ⟨ctx, payload⟩ := r
        simp [handlerLoop, hr, correlate, ih rs _ rest hd, List.append_assoc]

/-- C5, as the code has it: a record shorter than the 48-byte header fails to
decode (with `io.EOF` when it is empty, `io.ErrUnexpectedEOF` otherwise) and
the handler panics with that error.  The records before it are processed as
usual, no event is emitted for it, and none of the records after it is
processed: the run is the same whatever follows. -/
theorem decode_failure_panics (events : Table) (rawData : List Byte)
    (hshort : rawData.length < 48) :
    ∃ err : ReadError,
      binaryRead rawData = .error err
      ∧ (rawData = [] → err = .EOF) ∧ (rawData ≠ [] → err = .ErrUnexpectedEOF)
      ∧ ∀ (before after : List (List Byte)) (recs : List (context × List Byte)),
          decodeAll before = some recs →
          handlerLoop events (before ++ rawData :: after)
            = ((handlerLoop events before).1, .error err) := by
  by_cases hnil : rawData = []
  · refine ⟨.EOF, by simp [binaryRead, hnil], fun _ => rfl, fun h => absurd hnil h, ?_⟩
    intro before after recs hdec
    rw [handlerLoop_append_of_decodeAll before recs events _ hdec,
      handlerLoop_of_decodeAll before recs events hdec]
    simp [handlerLoop, binaryRead, hnil]
  · have hlen : rawData.length ≠ 0 := by
      intro h
      exact hnil (List.length_eq_zero.mp h)
    have hread : binaryRead rawData = .error .ErrUnexpectedEOF := by
      unfold binaryRead contextSize
      rw [if_neg hlen, if_pos hshort]
    refine ⟨.ErrUnexpectedEOF, hread, fun h => absurd h hnil, fun _ => rfl, ?_⟩
    intro before after recs hdec
    rw [handlerLoop_append_of_decodeAll before recs events _ hdec,
      handlerLoop_of_decodeAll before recs events hdec]
    simp [handlerLoop, hread]

/-- Witness for the amended C5: a 3-byte record after the stream of C1 ends
the run in a panic once the event of C1 is out. -/
theorem decode_failure_panics_witness :
    ([0, 0, 0] : List Byte).length < 48
      ∧ (handler (lsStream ++ [0, 0, 0] :: lsStream)).1.length = 1
      ∧ (handler (lsStream ++ [0, 0, 0] :: lsStream)).2 = .error .ErrUnexpectedEOF := by
  obtain ⟨err, h1, _, h3, h4⟩ := decode_failure_panics Table.empty [0, 0, 0] (by decide)
  have herr := h3 (by decide)
  subst herr
  have h := h4 lsStream lsStream (lsStream.map decodeContext) (by decide)
  refine ⟨by decide, ?_, ?_⟩
  · rw [handler, h]
    decide
  · rw [handler, h]

/-- Counterexample to C5 as stated: with a 3-byte record ahead of the stream of
C1 the handler panics and emits nothing, while without it the handler emits the
event of C1; the malformed record is not dropped, it ends the run. -/
theorem decode_failure_not_dropped :
    (handler ([0, 0, 0] :: lsStream)).1 = []
      ∧ (handler ([0, 0, 0] :: lsStream)).2 = .error .ErrUnexpectedEOF
      ∧ (handler lsStream).1.length = 1
      ∧ (handler ([0, 0, 0] :: lsStream)).1 ≠ (handler lsStream).1 := by
  refine ⟨by decide, rfl, by decide, by decide⟩

/-! ## Configuration -/

theorem runCalls_ne_nil (world : BpfCall → Option String) (c : BpfCall) (cs : List BpfCall) :
    (runCalls world (c :: cs)).1 ≠ [] := by
  unfold runCalls
  cases world c <;> simp

/-- C7: `New` returns an error without a single call into the instrumentation
library exactly when MaxArg < 0, MaxEnv < 0, MaxArg > 128 or MaxEnv > 128.  A
configuration with both values in [0,128] passes the check: the first thing
`New` then does is to open the module, the two values it writes to the
configuration map are the configured ones, and with a library in which every
call succeeds `New` succeeds.  With `--no-envs` the MaxEnv that `main` passes
is 0 whatever `--max-envs` is. -/
theorem New_checks_bounds (config : Config) (world : BpfCall → Option String) :
    (((New config world).calls = [] ∧ ∃ msg : String, (New config world).result = .error msg)
        ↔ (config.MaxArg < 0 ∨ config.MaxEnv < 0 ∨ config.MaxArg > 128 ∨ config.MaxEnv > 128))
      ∧ ((0 ≤ config.MaxArg ∧ config.MaxArg ≤ 128 ∧ 0 ≤ config.MaxEnv ∧ config.MaxEnv ≤ 128) →
          (New config world).calls.head? = some (.NewModuleFromFile "snoopy.bpf.o")
            ∧ ((toUint32 config.MaxArg : Nat) : Int) = config.MaxArg
            ∧ ((toUint32 config.MaxEnv : Nat) : Int) = config.MaxEnv
            ∧ (New config worldOk).calls = bpfCalls config
            ∧ ∃ s : Snoopy, (New config worldOk).result = .ok s)
      ∧ (∀ maxArgs maxEnvs : Int, (mainConfig maxArgs maxEnvs true).MaxEnv = 0
          ∧ (mainConfig maxArgs maxEnvs true).MaxArg = maxArgs
          ∧ (mainConfig maxArgs maxEnvs false).MaxEnv = maxEnvs) := by
  refine ⟨⟨?_, ?_⟩, ?_, ?_⟩
  · rintro ⟨hcalls, _⟩
    by_contra hb
    have h1 : ¬ (config.MaxArg < 0 ∨ config.MaxEnv < 0) := fun h => hb (by tauto)
    have h2 : ¬ (config.MaxArg > 128 ∨ config.MaxEnv > 128) := fun h => hb (by tauto)
    simp only [New, if_neg h1, if_neg h2] at hcalls
    exact runCalls_ne_nil world _ _ hcalls
  · intro hb
    by_cases h1 : config.MaxArg < 0 ∨ config.MaxEnv < 0
    · simp [New, h1]
    · have h2 : config.MaxArg > 128 ∨ config.MaxEnv > 128 := by tauto
      simp [New, h1, h2]
  · rintro ⟨a0, a1, e0, e1⟩
    have h1 : ¬ (config.MaxArg < 0 ∨ config.MaxEnv < 0) := by
      intro h; rcases h with h | h <;> omega
    have h2 : ¬ (config.MaxArg > 128 ∨ config.MaxEnv > 128) := by
      intro h; rcases h with h | h <;> omega
    have hok : ∀ cs : List BpfCall, runCalls worldOk cs = (cs, none) := by
      intro cs
      induction cs with
      | nil => rfl
      | cons c cs ih => simp [runCalls, worldOk, ih]
    refine ⟨?_, ?_, ?_, ?_, ?_⟩
    · simp only [New, if_neg h1, if_neg h2, bpfCalls, List.cons_append, runCalls]
      cases world (.NewModuleFromFile "snoopy.bpf.o") <;> simp
    · unfold toUint32; omega
    · unfold toUint32; omega
    · simp only [New, if_neg h1, if_neg h2, hok]
    · simp only [New, if_neg h1, if_neg h2, hok]
      exact ⟨_, rfl⟩
  · intro maxArgs maxEnvs
    simp [mainConfig]

/-- C8: for every configuration that `New` accepts, printEnv is true exactly
when MaxEnv > 0; so with MaxEnv = 0 and no formatter configured, `printer`
hands `false` to the default formatter.  With printEnv false the default
formatter gives the one line made of the padded timestamp, uid, tid, comm and
the joined arguments, which is the same whatever the envs of the event are;
the output with printEnv true is this line followed by the block in braces. -/
theorem maxEnv_zero_prints_no_envs (config : Config) (world : BpfCall → Option String)
    (s : Snoopy) (hnew : (New config world).result = .ok s) :
    (s.printEnv = true ↔ config.MaxEnv > 0)
      ∧ (config.MaxEnv = 0 → config.Formatter = none →
          s.printEnv = false
            ∧ ∀ event : Event,
                printerLine s event = some (defaultFormatter event false ++ str "\n"))
      ∧ ∀ event : Event,
          defaultFormatter event false
              = padRight 16 (timestamp event.Ts) ++ str " [uid:" ++ decimal event.Uid
                  ++ str " tid:" ++ decimal event.Tid ++ str ", comm:" ++ event.Comm
                  ++ str "]: " ++ joinBlank event.Args ++ str "\n"
            ∧ (∀ envs : List (List Byte),
                defaultFormatter { event with Envs := envs } false
                  = defaultFormatter event false)
            ∧ defaultFormatter event true
                = (defaultFormatter event false).dropLast ++ str "\n\x7b"
                    ++ joinBlank event.Envs ++ str "\x7d\n" := by
  have hs : s = { config := { config with
                    Formatter := some (config.Formatter.getD defaultFormatter) }
                  printEnv := decide (config.MaxEnv > 0) } := by
    unfold New at hnew
    split at hnew
    · simp at hnew
    · split at hnew
      · simp at hnew
      · simp only at hnew
        split at hnew
        · simp at hnew
        · simp at hnew
          exact hnew.symm
  refine ⟨?_, ?_, ?_⟩
  · rw [hs]; simp
  · intro h0 hf
    rw [hs]
    simp [h0, hf, printerLine]
  · intro event
    have hnl : str "\n" = [10] := by decide
    refine ⟨?_, ?_, ?_⟩
    · simp only [defaultFormatter, Bool.false_eq_true, if_false]
    · intro envs
      simp only [defaultFormatter, Bool.false_eq_true, if_false]
    · simp only [defaultFormatter, if_true, Bool.false_eq_true, if_false, hnl]
      rw [List.dropLast_concat]

/-- Witness for C8: `--no-envs` with every library call succeeding; the line
printed for the event of C1 has no block in braces. -/
theorem maxEnv_zero_prints_no_envs_witness :
    (New (mainConfig 16 16 true) worldOk).result = .ok noEnvsSnoopy
      ∧ noEnvsSnoopy.printEnv = false
      ∧ printerLine noEnvsSnoopy lsEvent
          = some (str "00:00:00:000001  [uid:0 tid:7, comm:ls]: /bin/ls -la\n\n") := by
  have hnew : (New (mainConfig 16 16 true) worldOk).result = .ok noEnvsSnoopy := by
    simp [New, mainConfig, worldOk, runCalls, bpfCalls, probes, noEnvsSnoopy]
  have h := maxEnv_zero_prints_no_envs (mainConfig 16 16 true) worldOk noEnvsSnoopy hnew
  refine ⟨hnew, (h.2.1 rfl rfl).1, ?_⟩
  rw [(h.2.1 rfl rfl).2 lsEvent]
  decide

/-! ## Cancellation -/

theorem binaryRead_argRaw : binaryRead argRaw = .ok (argCtx, binLs) := by
  rfl

theorem binaryRead_retRaw : binaryRead retRaw = .ok (retCtx, []) := by
  rfl

/-- Records arrive on the first input while it has room. -/
theorem deliver_all (l : List (List Byte)) :
    ∀ input : List (List Byte), input.length + l.length ≤ dataChanCap →
      Relation.ReflTransGen Step (queued 0 input) (queued 0 (input ++ l)) := by
  induction l with
  | nil =>
    intro input _
    simp only [List.append_nil]
    exact Relation.ReflTransGen.refl
  | cons rawData l ih =>
    intro input h
    simp only [List.length_cons] at h
    have hroom : input.length < dataChanCap := by omega
    have h1 : Step (queued 0 input) (queued 0 (input ++ [rawData])) :=
      Step.deliverExecve (queued 0 input) rawData _
        (by simp [Source.deliver, queued, sysWith, hroom])
    have h2 := ih (input ++ [rawData]) (by simp only [List.length_append, List.length_singleton]; omega)
    rw [List.append_assoc] at h2
    exact Relation.ReflTransGen.head h1 h2

/-- The Arg record of an execution opens the entry. -/
theorem step_arg (n : Nat) (rest : List (List Byte)) :
    Step (queued n (argRaw :: rest)) (opened n rest) := by
  have hsw : handlerSwitch Table.empty argCtx binLs = (Table.empty.set 7 ev7, none) := by
    simp [handlerSwitch, argCtx, Table.empty, DataArg, ev7]
  have h := Step.execve (queued n (argRaw :: rest))
    (List.replicate n ev7,
      { input := rest, closed := false, worker := .receiving (Table.empty.set 7 ev7) })
    (by simp [handlerStep, queued, sysWith, binaryRead_argRaw, hsw, afterRecord])
  exact h

/-- The Ret record of an execution takes the goroutine into the send. -/
theorem step_ret (n : Nat) (rest : List (List Byte)) :
    Step (opened n (retRaw :: rest)) (pushing n rest) := by
  have hdel : (Table.empty.set 7 ev7).delete 7 = Table.empty :=
    Table.delete_set Table.empty 7 ev7 rfl
  have hsw : handlerSwitch (Table.empty.set 7 ev7) retCtx [] = (Table.empty, some ev7) := by
    have hev : ({ ev7 with Ret := 0 } : Event) = ev7 := rfl
    simp [handlerSwitch, retCtx, Table.set_same, hdel, DataArg, DataEnv, DataRet, hev]
  have h := Step.execve (opened n (retRaw :: rest))
    (List.replicate n ev7,
      { input := rest, closed := false, worker := .sending Table.empty ev7 })
    (by simp [handlerStep, opened, sysWith, binaryRead_retRaw, hsw])
  exact h

/-- The send goes through while the queue has room. -/
theorem step_send (n : Nat) (rest : List (List Byte)) (hn : n < eventsChanCap) :
    Step (pushing n rest) (queued (n + 1) rest) := by
  have h := Step.execve (pushing n rest)
    (List.replicate (n + 1) ev7,
      { input := rest, closed := false, worker := .receiving Table.empty })
    (by simp [handlerStep, pushing, sysWith, hn, afterRecord, List.replicate_succ'])
  exact h

theorem queued_pair (n : Nat) (rest : List (List Byte)) (hn : n < eventsChanCap) :
    Relation.ReflTransGen Step (queued n (argRaw :: retRaw :: rest)) (queued (n + 1) rest) :=
  ((Relation.ReflTransGen.single (step_arg n (retRaw :: rest))).tail (step_ret n rest)).tail
    (step_send n rest hn)

theorem queued_pairs (k : Nat) :
    ∀ (n : Nat) (rest : List (List Byte)), n + k ≤ eventsChanCap →
      Relation.ReflTransGen Step
        (queued n ((List.replicate k [argRaw, retRaw]).flatten ++ rest)) (queued (n + k) rest) := by
  induction k with
  | zero =>
    intro n rest _
    exact Relation.ReflTransGen.refl
  | succ k ih =>
    intro n rest h
    have h1 := queued_pair n ((List.replicate k [argRaw, retRaw]).flatten ++ rest) (by omega)
    have h2 := ih (n + 1) rest (by omega)
    have e1 : (List.replicate (k + 1) [argRaw, retRaw]).flatten ++ rest
        = argRaw :: retRaw :: ((List.replicate k [argRaw, retRaw]).flatten ++ rest) := by
      simp [List.replicate_succ]
    have e2 : n + 1 + k = n + (k + 1) := by omega
    rw [e1]
    rw [e2] at h2
    exact h1.trans h2

theorem length_pairs (k : Nat) :
    ((List.replicate k [argRaw, retRaw]).flatten).length = 2 * k := by
  induction k with
  | zero => rfl
  | succ k ih =>
    rw [List.replicate_succ, List.flatten_cons, List.length_append, ih]
    simp only [List.length_cons, List.length_nil]
    omega

/-- The blocked state is reached from the state `Run` sets up. -/
theorem blockedState_reachable : Relation.ReflTransGen Step Sys.init blockedState := by
  have h0 : Relation.ReflTransGen Step (queued 0 []) (queued 0 ([] ++ blockingInput)) :=
    deliver_all blockingInput [] (by
      have hl : blockingInput.length = 2 * 128 + 2 := by
        unfold blockingInput
        rw [List.length_append, length_pairs]
        rfl
      rw [hl]
      decide)
  have h1 := queued_pairs 128 0 [argRaw, retRaw] (by simp [eventsChanCap])
  have h2 : Step (queued (0 + 128) [argRaw, retRaw]) (opened 128 [retRaw]) :=
    step_arg 128 [retRaw]
  have h3 : Step (opened 128 [retRaw]) (pushing 128 []) := step_ret 128 []
  have h4 : Step (pushing 128 []) (closeDone (pushing 128 [])) := Step.cancel _
  have h5 : Step (closeDone (pushing 128 [])) blockedState :=
    Step.printer _ _ (by simp [printerSteps, closeDone, pushing, sysWith, blockedState])
  exact h0.trans ((((h1.tail h2).tail h3).tail h4).tail h5)

theorem Blocked_blockedState : Blocked blockedState := by
  simp [Blocked, blockedState, sysWith, eventsChanCap]

/-- No move of the system leads out of the blocked states. -/
theorem Blocked_step (s t : Sys) (hb : Blocked s) (hstep : Step s t) : Blocked t := by
  obtain ⟨h1, h2, h3, h4⟩ := hb
  have hfull : ¬ s.chan.length < eventsChanCap := by omega
  cases hstep with
  | execve r h =>
    simp [handlerStep, h4, hfull] at h
  | execveat r h =>
    refine ⟨h1, h2, ?_, h4⟩
    have hchan : s.chan.length ≤ r.1.length := by
      unfold handlerStep at h
      split at h
      · split at h
        · split at h
          · simp at h
            rw [← h]
          · simp at h
        · split at h
          · simp at h
            rw [← h]
          · split at h
            · simp at h
              rw [← h]
            · simp at h
              rw [← h]
      · rw [if_neg hfull] at h
        simp at h
      · simp at h
      · simp at h
    exact le_trans h3 hchan
  | printer _ hp =>
    simp [printerSteps, h2] at hp
  | cancel => exact ⟨rfl, h2, h3, h4⟩
  | deliverExecve rawData src h =>
    refine ⟨h1, h2, h3, ?_⟩
    unfold Source.deliver at h
    split at h
    · simp at h
      rw [← h]
      exact h4
    · simp at h
  | deliverExecveat rawData src h => exact ⟨h1, h2, h3, h4⟩
  | closeExecve h => exact ⟨h1, h2, h3, h4⟩
  | closeExecveat h => exact ⟨h1, h2, h3, h4⟩

theorem Blocked_steps (s t : Sys) (hb : Blocked s) (h : Relation.ReflTransGen Step s t) :
    Blocked t := by
  induction h with
  | refl => exact hb
  | tail _ hstep ih => exact Blocked_step _ _ ih hstep

/-- Counterexample to C9 as stated: from the state `Run` sets up, with 129
executions on one source and a `printer` that prints nothing before the signal,
the system reaches a state in which `done` is closed, `eventsChanOut` holds 128
events, `printer` has returned and a `handler` goroutine is inside the push of
the 129th event.  The goroutine has not returned, it cannot step, `printer`
cannot step, and in every state that follows, whatever the other goroutines and
the record sources do, it has still not returned. -/
theorem worker_blocked_after_cancel :
    Relation.ReflTransGen Step Sys.init blockedState
      ∧ blockedState.doneClosed = true
      ∧ blockedState.chan.length = eventsChanCap
      ∧ blockedState.printerRunning = false
      ∧ blockedState.execve.worker.hasReturned = false
      ∧ handlerStep blockedState.chan blockedState.doneClosed blockedState.execve = none
      ∧ printerSteps blockedState = []
      ∧ ∀ t : Sys, Relation.ReflTransGen Step blockedState t →
          t.execve.worker.hasReturned = false
            ∧ handlerStep t.chan t.doneClosed t.execve = none := by
  refine ⟨blockedState_reachable, rfl, by simp [blockedState, sysWith, eventsChanCap], rfl, rfl,
    ?_, ?_, ?_⟩
  · simp [handlerStep, blockedState, sysWith, eventsChanCap]
  · simp [printerSteps, blockedState, sysWith]
  · intro t ht
    obtain ⟨_, _, h3, h4⟩ := Blocked_steps _ _ Blocked_blockedState ht
    have hfull : ¬ t.chan.length < eventsChanCap := by omega
    constructor
    · rw [h4]; rfl
    · simp [handlerStep, h4, hfull]

/-- C9, as the code has it: with `done` closed, a goroutine that takes a
record of at least 48 bytes from its input steps past the switch without
waiting.  When the record completes no event, that step ends in `return`.
When the record completes an event, the goroutine is then inside the push:
whenever `eventsChanOut` has room the push goes through and the goroutine
returns, and while `eventsChanOut` is full the goroutine has no step. -/
theorem worker_returns_when_push_accepted (chan : List Event) (src : Source) (events : Table)
    (rawData : List Byte) (rest : List (List Byte))
    (hw : src.worker = .receiving events) (hin : src.input = rawData :: rest)
    (hlen : 48 ≤ rawData.length) :
    ∃ src1 : Source,
      handlerStep chan true src = some (chan, src1) ∧ src1.input = rest
      ∧ ((handlerSwitch events (decodeContext rawData).1 (decodeContext rawData).2).2 = none →
          src1.worker = .returned)
      ∧ ∀ event : Event,
          (handlerSwitch events (decodeContext rawData).1 (decodeContext rawData).2).2
              = some event →
          ∀ chan2 : List Event,
            (chan2.length < eventsChanCap →
              ∃ src2 : Source, handlerStep chan2 true src1 = some (chan2 ++ [event], src2)
                ∧ src2.worker = .returned)
            ∧ (eventsChanCap ≤ chan2.length → handlerStep chan2 true src1 = none) := by
  have hread : binaryRead rawData = .ok (decodeContext rawData) := by
    unfold binaryRead contextSize
    rw [if_neg (by omega), if_neg (by omega)]
  cases hx : (handlerSwitch events (decodeContext rawData).1 (decodeContext rawData).2).2 with
  | none =>
    refine ⟨{ src with input := rest, worker := .returned }, ?_, rfl, fun _ => rfl, ?_⟩
    · simp [handlerStep, hw, hin, hread, hx, afterRecord]
    · intro event h
      simp at h
  | some e =>
    refine ⟨{ src with input := rest,
                       worker := .sending (handlerSwitch events (decodeContext rawData).1
                         (decodeContext rawData).2).1 e }, ?_, rfl, ?_, ?_⟩
    · simp [handlerStep, hw, hin, hread, hx]
    · intro h
      simp at h
    · intro event h chan2
      simp only [Option.some.injEq] at h
      subst h
      constructor
      · intro hroom
        exact ⟨{ input := rest, closed := src.closed, worker := .returned },
          by simp [handlerStep, hroom, afterRecord], rfl⟩
      · intro hfull
        have hno : ¬ chan2.length < eventsChanCap := by omega
        simp [handlerStep, hno]

/-- Witness for the amended C9: `done` closed, five events queued, the entry of
tid 7 open and its Ret record next: the goroutine pushes the event and
returns. -/
theorem worker_returns_when_push_accepted_witness :
    ∃ src1 src2 : Source,
      handlerStep (List.replicate 5 ev7) true (opened 5 [retRaw]).execve
          = some (List.replicate 5 ev7, src1)
        ∧ handlerStep (List.replicate 5 ev7) true src1 = some (List.replicate 6 ev7, src2)
        ∧ src2.worker.hasReturned = true ∧ src2.input = [] := by
  have hsw : (handlerSwitch (Table.empty.set 7 ev7) (decodeContext retRaw).1
      (decodeContext retRaw).2).2 = some ev7 := by
    have hd : decodeContext retRaw = (retCtx, []) := rfl
    have hev : ({ ev7 with Ret := 0 } : Event) = ev7 := rfl
    simp [hd, handlerSwitch, retCtx, Table.set_same, DataArg, DataEnv, DataRet, hev]
  obtain ⟨src1, h1, h2, _, h4⟩ :=
    worker_returns_when_push_accepted (List.replicate 5 ev7) (opened 5 [retRaw]).execve
      (Table.empty.set 7 ev7) retRaw [] rfl rfl (by decide)
  obtain ⟨src2, h5, h6⟩ := (h4 ev7 hsw (List.replicate 5 ev7)).1 (by decide)
  refine ⟨src1, src2, h1, ?_, ?_, ?_⟩
  · rw [h5]; rfl
  · rw [h6]; rfl
  · have hin : src2.input = src1.input := by
      have := h5
      simp only [handlerStep] at this
      split at this
      · rename_i hwk
        split at this
        · split at this <;> simp at this
        · rw [h2] at *
          simp_all
      · split at this
        · simp at this
          rw [← this.2]
        · simp at this
      · simp at this
      · simp at this
    rw [hin, h2]

end SnoopyEbpf
